import Mathlib

/-!
Verification development for the `download-video-api` service
(`api_videos.py`). The definitions below are a shallow embedding of the
program: pure fragments become Lean functions, the effectful `/download`
handler becomes a function over an explicit environment describing what
the extraction engine and the filesystem answer, and Python exceptions
become `Except` values. Character-level Python primitives (`int()`,
`str.replace`, `str.isalnum`, `str.strip`) are modelled for ASCII input.
-/

/-! ### Model of Python `int(string)` (ASCII)

`int(resolution.replace('p', ''))` appears at line 120 of the source and
`int(x['resolution'].replace('p', ''))` as the sort key at line 94.
Python accepts optional surrounding whitespace, one optional sign, and a
nonempty digit sequence in which single underscores may separate digits.
-/

/-- The decimal digit character for `d` (0-9): `'0'`..`'9'`. -/
def digitChar (d : Nat) : Char := Char.ofNat (48 + d)

/-- Digit sequence consumer: accepts digits with single underscores strictly
between digits (Python, version 3.6 and later). `prevUnd` records whether the
previous character was an underscore. -/
def digitsCore : Bool → Nat → List Char → Option Nat
  | prevUnd, acc, [] => if prevUnd then none else some acc
  | prevUnd, acc, c :: rest =>
    if c.isDigit then digitsCore false (acc * 10 + (c.toNat - 48)) rest
    else if c = '_' ∧ prevUnd = false then
      -- an underscore is only legal directly after a digit
      digitsCore true acc rest
    else none

/-- A digit part must start with a digit (no leading underscore). -/
def pyIntCore : List Char → Option Nat
  | [] => none
  | c :: rest => if c.isDigit then digitsCore false 0 (c :: rest) else none

/-- One optional leading sign, then the digit part. -/
def pyIntSigned : List Char → Option Int
  | [] => none
  | c :: rest =>
    if c = '+' then (pyIntCore rest).map Int.ofNat
    else if c = '-' then (pyIntCore rest).map (fun n => -(n : Int))
    else (pyIntCore (c :: rest)).map Int.ofNat

/-- Python `str.strip()` (ASCII whitespace model). -/
def pyStrip (l : List Char) : List Char :=
  ((l.dropWhile Char.isWhitespace).reverse.dropWhile Char.isWhitespace).reverse

/-- Model of Python `int(s)`: `none` when `int` raises `ValueError`. -/
def pyInt (s : String) : Option Int :=
  pyIntSigned (pyStrip s.data)

/-- Model of `s.replace('p', '')`: removes every `'p'`. -/
def removeP (s : String) : String :=
  ⟨s.data.filter (fun c => c != 'p')⟩

/-! ### Decimal rendering of a natural number

Models the Python f-string `f'{height}p'` at line 80. Written with
explicit fuel so that it is structurally recursive (and hence evaluates
inside `decide`); fuel `n` suffices for the number `n`.
-/

/-- Decimal digits (most significant first) of `n`; `[]` for `n = 0`. -/
def natChars : Nat → Nat → List Char
  | 0, _ => []
  | fuel + 1, n =>
    if n = 0 then [] else natChars fuel (n / 10) ++ [digitChar (n % 10)]

/-- Decimal rendering of `n`, as Python `str(n)` / `f'{n}'` for naturals. -/
def natStr (n : Nat) : String :=
  if n = 0 then "0" else ⟨natChars n n⟩

/-! ### Catalog construction (`get_video_info`, lines 74-94)

The raw format dictionaries coming back from the extraction engine are
modelled by `RawFormat`; the entries the endpoint builds (lines 78-83) by
`FormatEntry`. Python truthiness of `f.get('height')` means: present and
nonzero.
-/

structure RawFormat where
  format_id : String
  height : Option Nat
  ext : String
  filesize : Option Nat
  deriving DecidableEq

structure FormatEntry where
  format_id : String
  resolution : String
  ext : String
  filesize : Option Nat
  deriving DecidableEq

/-- Lines 78-83: the dictionary appended for a kept raw format of height `h`. -/
def mkEntry (f : RawFormat) (h : Nat) : FormatEntry :=
  { format_id := f.format_id
    resolution := natStr h ++ "p"
    ext := f.ext
    filesize := f.filesize }

/-- Lines 75-83: keep a raw format only if `f.get('height')` is truthy
(present and nonzero) and `f.get('ext') == 'mp4'`. -/
def filterFormats : List RawFormat → List FormatEntry
  | [] => []
  | f :: rest =>
    match f.height with
    | some h =>
      if h ≠ 0 ∧ f.ext = "mp4" then mkEntry f h :: filterFormats rest
      else filterFormats rest
    | none => filterFormats rest

/-- Lines 85-91: deduplicate by `resolution`, first-seen wins; `seen` models
the `seen_resolutions` set. -/
def dedupByRes : List String → List FormatEntry → List FormatEntry
  | _, [] => []
  | seen, e :: rest =>
    if e.resolution ∈ seen then dedupByRes seen rest
    else e :: dedupByRes (e.resolution :: seen) rest

/-- Line 94's sort key `int(x['resolution'].replace('p', ''))`. For entries
built by `mkEntry` the parse always succeeds (proved below); the `getD 0`
default never fires on them. -/
def resKey (e : FormatEntry) : Int :=
  (pyInt (removeP e.resolution)).getD 0

/-- The comparator realising `sort(key=..., reverse=True)`: `a` may precede
`b` when `a`'s key is at least `b`'s. -/
def catLe (a b : FormatEntry) : Prop := resKey b ≤ resKey a

instance : DecidableRel catLe :=
  fun a b => inferInstanceAs (Decidable (resKey b ≤ resKey a))

instance : IsTotal FormatEntry catLe :=
  ⟨fun a b => le_total (resKey b) (resKey a)⟩

instance : IsTrans FormatEntry catLe :=
  ⟨fun _ _ _ hab hbc => le_trans hbc hab⟩

/-- Lines 86-94: the final `unique_formats` list — filter, dedup, then a
stable sort descending by the parsed resolution (keys are pairwise distinct
after dedup, so any correct sort gives the same list as Python's). -/
def unique_formats (raw : List RawFormat) : List FormatEntry :=
  List.insertionSort catLe (dedupByRes [] (filterFormats raw))

/-! ### Stream selection (`download_video`, lines 120-140)

The spec's `StreamDescriptor` (§3): one available encoding of the video,
with its `resolutionLabel` (e.g. `"720p"`) and pixel height. The handler
delegates selection to the extraction engine through a yt-dlp format
expression. -/

structure StreamDescriptor where
  resolutionLabel : String
  heightPixels : Nat
  deriving DecidableEq

/-- Line 122: the resolution-constrained format expression. It is computed
from the requested resolution but **never used** — `ydl_opts` at line 133
hardcodes `'format': 'best'`. -/
def format_str (height : Int) : String :=
  "bestvideo[height<=" ++ toString height ++
    "][ext=mp4]+bestaudio[ext=m4a]/best[height<=" ++ toString height ++
    "][ext=mp4]/best[ext=mp4]/best"

/-- One fold step of the engine's `'best'` selection. -/
def bestStep (acc : Option StreamDescriptor) (d : StreamDescriptor) :
    Option StreamDescriptor :=
  match acc with
  | none => some d
  | some b => if b.heightPixels < d.heightPixels then some d else some b

/-- Model of the extraction engine's selection for format `'best'` over a
catalog of progressive streams: the entry of greatest `heightPixels` (first
such on ties). The engine is the external yt-dlp dependency; this is its
documented behaviour for `'best'`. -/
def selectBest (catalog : List StreamDescriptor) : Option StreamDescriptor :=
  catalog.foldl bestStep none

/-- The stream selection the `/download` handler actually performs: the
format option handed to the engine is the constant `'best'` (line 133) —
`format_str` (line 122) is dead code — so the requested resolution never
reaches the engine. -/
def codeSelect (_resolution : String) (catalog : List StreamDescriptor) :
    Option StreamDescriptor :=
  selectBest catalog

/-! ### The `/download` handler (`download_video`, lines 110-180)

The environment `DlEnv` records everything the outside world answers
during one request: what `extract_info` returns (`none` models the engine
raising), the filename `prepare_filename` predicts, whether a file exists
at that path, which regular files `os.listdir` finds in the fresh scratch
directory, and the byte size the filesystem reports for a path. -/

/-- The slice of the `info` dictionary the handler reads. -/
structure EngineInfo where
  title : Option String
  deriving DecidableEq

structure DlEnv where
  extractResult : Option EngineInfo
  preparedFilename : String
  preparedExists : Bool
  scratchFiles : List String
  fileSize : String → Nat

/-- The parameters of the one engine invocation (lines 138-139):
`extract_info(url, download=False)` under `ydl_opts`. -/
structure EngineCall where
  download : Bool
  format : String
  outtmpl : Option String
  deriving DecidableEq

/-- The typed exceptions the handler body can raise. -/
inductive DlFailure
  /-- `ValueError` from `int()` at line 120. -/
  | invalidResolution
  /-- `yt_dlp` raising inside `extract_info` (bad URL, no usable format,
  network failure). -/
  | extractionFailed
  /-- `FileNotFoundError` at line 154. -/
  | artifactNotFound
  deriving DecidableEq

/-- The fields of the `StreamingResponse` built at lines 165-172. -/
structure DlResponse where
  status : Nat
  media_type : String
  contentDisposition : String
  contentLength : Nat
  deriving DecidableEq

/-- Line 157: `safe_title` — keep only alphanumerics and `'_'`, `'.'`,
`'-'`, then replace `' '` by `'_'`. The replace runs **after** the filter
(which already dropped every space), exactly as in the source. -/
def safe_title (title : String) : String :=
  ⟨(title.data.filter
      (fun c => c.isAlphanum || c == '_' || c == '.' || c == '-')).map
      (fun c => if c == ' ' then '_' else c)⟩

/-- Line 158: the suggested download filename. -/
def download_filename (title : String) : String :=
  safe_title title ++ ".mp4"

/-- Lines 142-154: locate the downloaded artifact. Primary: the predicted
filename, when a file exists at that path. Then `temp_dir/video.mp4` when
present. Then the first regular file `os.listdir` reports in the scratch
directory. `none` models reaching the `raise FileNotFoundError`. -/
def locateArtifact (predicted : String) (predictedExists : Bool)
    (scratch : List String) : Option String :=
  if predictedExists then some predicted
  else if "video.mp4" ∈ scratch then some "video.mp4"
  else scratch.head?

/-- Lines 119-172: the body of the inner `try`. Returns the response or the
raised exception, paired with the engine invocations made. -/
def downloadBody (env : DlEnv) (resolution : String) :
    Except DlFailure DlResponse × List EngineCall :=
  match pyInt (removeP resolution) with
  | none => (.error .invalidResolution, [])
  | some height =>
    let _fs := format_str height  -- line 122: computed, never used
    -- lines 126-139: ydl_opts with 'format': 'best', no outtmpl;
    -- extract_info is called with download=False
    let call : EngineCall := { download := false, format := "best", outtmpl := none }
    match env.extractResult with
    | none => (.error .extractionFailed, [call])
    | some info =>
      match locateArtifact env.preparedFilename env.preparedExists env.scratchFiles with
      | none => (.error .artifactNotFound, [call])
      | some fn =>
        let fname := download_filename (info.title.getD "video")
        (.ok { status := 200
               media_type := "video/mp4"
               contentDisposition := "attachment; filename=\"" ++ fname ++ "\""
               contentLength := env.fileSize fn }, [call])

/-- Everything observable about one `/download` request. -/
structure DlOutcome where
  result : Except (Nat × DlFailure) DlResponse
  engineCalls : List EngineCall
  rmtreeCalls : Nat
  scratchRemoved : Bool
  scratchWrites : List String

/-- Lines 110-180: the whole handler. `tempfile.mkdtemp()` (line 117) makes
the fresh, empty scratch directory; the inner `finally` (lines 174-176)
runs `shutil.rmtree(temp_dir, ignore_errors=True)` on every exit path of
the body — `rmtreeFails` says whether that removal itself errors, which
`ignore_errors=True` swallows; the outer `except` (lines 178-180) turns
any exception into `HTTPException(status_code=500)`. The handler itself
never writes into the scratch directory (the engine is only ever invoked
with `download=False` and no `outtmpl`). -/
def download_video (env : DlEnv) (rmtreeFails : Bool) (resolution : String) :
    DlOutcome :=
  let body := downloadBody env resolution
  { result := body.1.mapError (fun e => (500, e))
    engineCalls := body.2
    rmtreeCalls := 1
    scratchRemoved := !rmtreeFails
    scratchWrites := [] }

/-- The HTTP status the transport layer sends for an outcome. -/
def httpStatus (o : DlOutcome) : Nat :=
  match o.result with
  | .ok r => r.status
  | .error e => e.1

/-! ### Concrete environments used in the closed theorems below -/

/-- A request on which the body succeeds: the engine answers, and a file
with the predicted name happens to exist (necessarily outside the scratch
directory, which stays empty). -/
def envOk : DlEnv :=
  { extractResult := some { title := some "My Video" }
    preparedFilename := "My Video [abc123].mp4"
    preparedExists := true
    scratchFiles := []
    fileSize := fun _ => 2048 }

/-- A request on which `extract_info` raises — e.g. a video whose format
catalog is empty after filtering. -/
def envEmpty : DlEnv :=
  { extractResult := none
    preparedFilename := "x.mp4"
    preparedExists := false
    scratchFiles := []
    fileSize := fun _ => 0 }

/-- A concrete raw format list: two distinct usable heights, a duplicate
720, a format without height, and a non-mp4 format. -/
def rawW : List RawFormat :=
  [{ format_id := "f1", height := some 360, ext := "mp4", filesize := none },
   { format_id := "f2", height := some 720, ext := "mp4", filesize := some 1000 },
   { format_id := "f3", height := some 720, ext := "mp4", filesize := none },
   { format_id := "f4", height := none, ext := "mp4", filesize := none },
   { format_id := "f5", height := some 480, ext := "webm", filesize := none }]

/-- The first-seen 720p raw format of `rawW`. -/
def rw2 : RawFormat :=
  { format_id := "f2", height := some 720, ext := "mp4", filesize := some 1000 }

/-- A concrete two-entry catalog, sorted descending. -/
def catW : List StreamDescriptor :=
  [{ resolutionLabel := "480p", heightPixels := 480 },
   { resolutionLabel := "360p", heightPixels := 360 }]

/-! ## Theorems -/

/-! ### Helper lemmas -/

/-- `bestStep` keeps an accumulator that already dominates the rest. -/
theorem foldl_bestStep_of_max :
    ∀ (l : List StreamDescriptor) (b : StreamDescriptor),
      (∀ d ∈ l, d.heightPixels ≤ b.heightPixels) →
      List.foldl bestStep (some b) l = some b
  | [], _, _ => rfl
  | d :: rest, b, h => by
    have hd : d.heightPixels ≤ b.heightPixels := h d (by simp)
    have : bestStep (some b) d = some b := by
      simp [bestStep, Nat.not_lt_of_le hd]
    rw [List.foldl_cons, this]
    exact foldl_bestStep_of_max rest b fun e he => h e (by simp [he])

/-- On a catalog whose head dominates the tail, `'best'` selects the head. -/
theorem selectBest_eq_head (a : StreamDescriptor) (rest : List StreamDescriptor)
    (h : ∀ d ∈ rest, d.heightPixels ≤ a.heightPixels) :
    selectBest (a :: rest) = some a := by
  unfold selectBest
  rw [List.foldl_cons]
  show List.foldl bestStep (some a) rest = some a
  exact foldl_bestStep_of_max rest a h

/-! ### C1 -/

/-- C1: refuted as stated. The claim says an exact `resolutionLabel` match is
returned immediately, but the handler's selection is independent of the
requested resolution — the format expression built from it (`format_str`,
line 122) is never used and the engine receives the constant `'best'`
(line 133). Concretely, on the catalog `[720p, 360p]` a request for
`"360p"` selects the 720p entry, not the exact match. -/
theorem c1_exact_match_not_returned :
    (∀ r s : String, ∀ cat : List StreamDescriptor,
        codeSelect r cat = codeSelect s cat) ∧
    codeSelect "360p"
        [{ resolutionLabel := "720p", heightPixels := 720 },
         { resolutionLabel := "360p", heightPixels := 360 }]
      = some { resolutionLabel := "720p", heightPixels := 720 } ∧
    ({ resolutionLabel := "360p", heightPixels := 360 } : StreamDescriptor) ∈
        [{ resolutionLabel := "720p", heightPixels := 720 },
         { resolutionLabel := "360p", heightPixels := 360 }] ∧
    some ({ resolutionLabel := "720p", heightPixels := 720 } : StreamDescriptor)
      ≠ some ({ resolutionLabel := "360p", heightPixels := 360 } : StreamDescriptor) := by
  refine ⟨fun r s cat => rfl, by decide, by decide, by decide⟩

/-! ### C2 -/

/-- C2: for a non-empty, strictly descending catalog in which no entry carries
the requested label, the handler's selection returns the first (maximum
`heightPixels`) entry — a best-available fallback. It holds because the
engine is always asked for `'best'`. -/
theorem c2_best_available_fallback (req : String) (cat : List StreamDescriptor)
    (hsorted : cat.Pairwise (fun a b => b.heightPixels < a.heightPixels))
    (hne : cat ≠ [])
    (habsent : ∀ d ∈ cat, d.resolutionLabel ≠ req) :
    codeSelect req cat = cat.head? ∧
    ∃ top, cat.head? = some top ∧ top ∈ cat ∧
      ∀ d ∈ cat, d.heightPixels ≤ top.heightPixels := by
  match cat with
  | [] => exact absurd rfl hne
  | a :: rest =>
    have hdom : ∀ d ∈ rest, d.heightPixels ≤ a.heightPixels := by
      intro d hd
      exact le_of_lt ((List.pairwise_cons.mp hsorted).1 d hd)
    refine ⟨selectBest_eq_head a rest hdom, a, rfl, by simp, ?_⟩
    intro d hd
    rcases List.mem_cons.mp hd with h | h
    · simp [h]
    · exact hdom d h

/-- C2 witness: catalog `[{480p,480},{360p,360}]`, request `"1080p"` —
selection returns the head, the 480p entry. -/
theorem c2_witness :
    codeSelect "1080p" catW = catW.head? :=
  (c2_best_available_fallback "1080p" catW (by decide) (by decide) (by decide)).1

/-! ### C4 -/

/-- C4: on every execution of `/download` — success or failure of any later
step — the scratch-directory removal (`shutil.rmtree` in the `finally`
block, lines 174-176) runs exactly once, and a failure of the removal
itself (`ignore_errors=True`) changes nothing observable about the
response or the engine interaction. -/
theorem c4_cleanup_exactly_once (env : DlEnv) (b : Bool) (res : String) :
    (download_video env b res).rmtreeCalls = 1 ∧
    (download_video env true res).result = (download_video env false res).result ∧
    (download_video env true res).engineCalls
      = (download_video env false res).engineCalls :=
  ⟨rfl, rfl, rfl⟩

/-! ### C5 -/

/-- C5: refuted as stated. A `/download` execution can succeed (here: the
predicted filename exists on disk), yet the engine is only ever invoked
with `download=False`, format `'best'` and no `outtmpl` — it is never
instructed to download into the scratch directory, the requested format
constraint is never transmitted, and the handler writes nothing into the
scratch directory on any request. -/
theorem c5_no_materialization :
    httpStatus (download_video envOk false "720p") = 200 ∧
    (download_video envOk false "720p").engineCalls
      = [{ download := false, format := "best", outtmpl := none }] ∧
    (∀ env b r, (download_video env b r).scratchWrites = ([] : List String)) :=
  ⟨rfl, rfl, fun _ _ _ => rfl⟩

/-! ### C7 -/

/-- C7: refuted as stated. `safe_title` filters the disallowed characters
(spaces included) **before** the space-to-underscore replace, so the
replace is a no-op: the title `"Foo: Bar?! (Live)"` yields
`"FooBarLive.mp4"`, not the claimed `"Foo_Bar_Live.mp4"`. -/
theorem c7_whitespace_deleted_not_underscored :
    download_filename "Foo: Bar?! (Live)" = "FooBarLive.mp4" ∧
    ("FooBarLive.mp4" : String) ≠ "Foo_Bar_Live.mp4" := by
  refine ⟨by decide, by decide⟩

/-! ### C8 -/

/-- C8 counterexample: the non-empty title `"???"` sanitizes to the empty
base name. -/
theorem c8_counterexample :
    safe_title "???" = "" ∧ ("???" : String) ≠ "" := by
  refine ⟨by decide, by decide⟩

/-- C8 as amended: the sanitized base name is non-empty for every title
containing at least one character the filter keeps (alphanumeric or `'_'`,
`'.'`, `'-'`) — the restriction of the original never-empty guarantee that
the counterexample `"???"` forces. -/
theorem c8_nonempty_base (t : String)
    (h : ∃ c ∈ t.data, (c.isAlphanum || c == '_' || c == '.' || c == '-') = true) :
    safe_title t ≠ "" := by
  intro heq
  have hdata : (safe_title t).data = [] := by rw [heq]
  have hmap :
    ((t.data.filter
        (fun c => c.isAlphanum || c == '_' || c == '.' || c == '-')).map
        (fun c => if c == ' ' then '_' else c)) = [] := hdata
  have hfil :
      t.data.filter
        (fun c => c.isAlphanum || c == '_' || c == '.' || c == '-') = [] :=
    List.map_eq_nil_iff.mp hmap
  rcases h with ⟨c, hc, hallowed⟩
  have : c ∈ ([] : List Char) := by
    rw [← hfil]
    exact List.mem_filter.mpr ⟨hc, hallowed⟩
  exact absurd this (List.not_mem_nil c)

/-- C8 witness: the title `"a b"` has a kept character, so its base name is
non-empty. -/
theorem c8_witness : safe_title "a b" ≠ "" :=
  c8_nonempty_base "a b" (by decide)

/-! ### C10 -/

/-- C10: whenever stripping the `'p'` characters from the `resolution`
parameter leaves something `int()` rejects, the handler fails before the
extraction engine is ever invoked, and the outer handler turns the
`ValueError` into HTTP 500 — no client-error status, no default. -/
theorem c10_invalid_resolution_500 (env : DlEnv) (b : Bool) (res : String)
    (h : pyInt (removeP res) = none) :
    (download_video env b res).result = .error (500, .invalidResolution) ∧
    (download_video env b res).engineCalls = [] := by
  unfold download_video downloadBody
  rw [h]
  exact ⟨rfl, rfl⟩

/-- C10 witness: the parameter `"abc"` parses to nothing, so the request
answers 500 with no engine call. -/
theorem c10_witness :
    (download_video envOk true "abc").result = .error (500, .invalidResolution) ∧
    (download_video envOk true "abc").engineCalls = [] :=
  c10_invalid_resolution_500 envOk true "abc" (by decide)

/-! ### C3 -/

/-- C3 counterexample: on a request whose extraction step fails (the engine
raises, as it does when the format catalog is empty), the endpoint answers
HTTP 500 — not the claimed 404. -/
theorem c3_counterexample :
    httpStatus (download_video envEmpty false "720p") = 500 ∧
    (500 : Nat) ≠ 404 :=
  ⟨rfl, by decide⟩

/-- C3 as amended: the handler has no 404 path and no dedicated
empty-catalog error — every `/download` request answers either 200 or 500,
because the single `except` clause (lines 178-180) maps every failure,
the empty-catalog case included, to `HTTPException(status_code=500)`. -/
theorem c3_failures_are_500 (env : DlEnv) (b : Bool) (res : String) :
    httpStatus (download_video env b res) ≠ 404 ∧
    (httpStatus (download_video env b res) = 200 ∨
     httpStatus (download_video env b res) = 500) := by
  unfold httpStatus download_video downloadBody
  rcases hp : pyInt (removeP res) with _ | height
  · simp [Except.mapError]
  · rcases hx : env.extractResult with _ | info
    · simp [Except.mapError]
    · rcases hl : locateArtifact env.preparedFilename env.preparedExists
          env.scratchFiles with _ | fn
      · simp [Except.mapError]
      · simp [Except.mapError]

/-! ### C6 -/

/-- C6 counterexample: with the predicted file absent and the scratch
directory listing `["clip.webm", "video.mp4"]`, the code returns
`video.mp4` — the dedicated `temp_dir/video.mp4` probe at lines 144-147
wins — while the claim's scan-first-match rule would return `clip.webm`. -/
theorem c6_counterexample :
    locateArtifact "predicted.mp4" false ["clip.webm", "video.mp4"]
      = some "video.mp4" ∧
    List.head? ["clip.webm", "video.mp4"] = some "clip.webm" ∧
    ("video.mp4" : String) ≠ "clip.webm" := by
  refine ⟨by decide, rfl, by decide⟩

/-- C6 as amended: the predicted filename wins whenever a file exists at
that path; otherwise `scratch/video.mp4` wins when present; otherwise the
first regular file of the directory scan; and the request fails with the
artifact-not-found error as HTTP 500 exactly when the prediction misses
and the scratch directory holds no regular file (after a valid resolution
parse and a successful extraction call). -/
theorem c6_artifact_location (p : String) (pe : Bool) (fs : List String)
    (env : DlEnv) (b : Bool) (res : String) :
    (pe = true → locateArtifact p pe fs = some p) ∧
    (pe = false → "video.mp4" ∈ fs → locateArtifact p pe fs = some "video.mp4") ∧
    (pe = false → "video.mp4" ∉ fs → locateArtifact p pe fs = fs.head?) ∧
    ((download_video env b res).result = .error (500, .artifactNotFound) ↔
      (pyInt (removeP res)).isSome = true ∧ env.extractResult.isSome = true ∧
      locateArtifact env.preparedFilename env.preparedExists env.scratchFiles
        = none) := by
  refine ⟨?_, ?_, ?_, ?_⟩
  · intro h; simp [locateArtifact, h]
  · intro h hv; simp [locateArtifact, h, hv]
  · intro h hv; simp [locateArtifact, h, hv]
  · unfold download_video downloadBody
    rcases hp : pyInt (removeP res) with _ | height
    · simp [hp, Except.mapError]
    · rcases hx : env.extractResult with _ | info
      · simp [hp, hx, Except.mapError]
      · rcases hl : locateArtifact env.preparedFilename env.preparedExists
            env.scratchFiles with _ | fn
        · simp [hp, hx, hl, Except.mapError]
        · simp [hp, hx, hl, Except.mapError]

/-- C6 witness: the amended location rule applied at concrete inputs —
prediction present, and prediction absent with an empty scratch listing. -/
theorem c6_witness :
    locateArtifact "pred.mp4" true ["other.bin"] = some "pred.mp4" ∧
    locateArtifact "pred.mp4" false [] = List.head? ([] : List String) :=
  ⟨(c6_artifact_location "pred.mp4" true ["other.bin"] envOk false "720p").1 rfl,
   (c6_artifact_location "pred.mp4" false [] envOk false "720p").2.2.1 rfl
     (by decide)⟩

/-! ### Decimal roundtrip: the sort key recovers the height -/

/-- Character facts about decimal digit characters, by case analysis on the
ten digits. -/
theorem digitChar_props (d : Nat) (hd : d < 10) :
    (digitChar d).isDigit = true ∧ (digitChar d).toNat - 48 = d ∧
    (digitChar d).isWhitespace = false ∧ digitChar d ≠ '+' ∧
    digitChar d ≠ '-' ∧ digitChar d ≠ 'p' := by
  interval_cases d <;> exact ⟨rfl, rfl, rfl, by decide, by decide, by decide⟩

/-- `natChars` produces digit characters, and folding the decimal
accumulator over them recovers the number. -/
theorem natChars_spec :
    ∀ (fuel n : Nat), n < 10 ^ fuel →
      (∀ c ∈ natChars fuel n, ∃ d, d < 10 ∧ c = digitChar d) ∧
      (∀ acc, (natChars fuel n).foldl (fun a c => a * 10 + (c.toNat - 48)) acc
          = acc * 10 ^ (natChars fuel n).length + n)
  | 0, n, hn => by
    interval_cases n
    exact ⟨by simp [natChars], fun acc => by simp [natChars]⟩
  | fuel + 1, n, hn => by
    by_cases h0 : n = 0
    · subst h0
      exact ⟨by simp [natChars], fun acc => by simp [natChars]⟩
    · have hdiv : n / 10 < 10 ^ fuel := by
        rw [Nat.div_lt_iff_lt_mul (by norm_num)]
        calc n < 10 ^ (fuel + 1) := hn
          _ = 10 ^ fuel * 10 := by rw [pow_succ]
      obtain ⟨ihc, ihf⟩ := natChars_spec fuel (n / 10) hdiv
      have hmod : n % 10 < 10 := Nat.mod_lt n (by norm_num)
      have hunfold : natChars (fuel + 1) n
          = natChars fuel (n / 10) ++ [digitChar (n % 10)] := by
        simp [natChars, h0]
      constructor
      · intro c hc
        rw [hunfold, List.mem_append] at hc
        rcases hc with hc | hc
        · exact ihc c hc
        · simp only [List.mem_singleton] at hc
          exact ⟨n % 10, hmod, hc⟩
      · intro acc
        rw [hunfold, List.foldl_append, ihf acc]
        simp only [List.foldl_cons, List.foldl_nil, List.length_append,
          List.length_singleton]
        rw [(digitChar_props (n % 10) hmod).2.1]
        have hx := Nat.div_add_mod n 10
        set q : Nat := 10 ^ (natChars fuel (n / 10)).length with hq
        have : 10 ^ ((natChars fuel (n / 10)).length + 1) = q * 10 := by
          rw [pow_succ]
        rw [this, ← mul_assoc]
        set m : Nat := acc * q with hm
        omega

/-- `digitsCore` over a pure digit string is the decimal fold. -/
theorem digitsCore_all_digits :
    ∀ (l : List Char), (∀ c ∈ l, c.isDigit = true) → ∀ acc,
      digitsCore false acc l
        = some (l.foldl (fun a c => a * 10 + (c.toNat - 48)) acc)
  | [], _, acc => rfl
  | c :: rest, h, acc => by
    have hc : c.isDigit = true := h c (by simp)
    rw [List.foldl_cons]
    show digitsCore false acc (c :: rest) = _
    rw [digitsCore, if_pos hc]
    exact digitsCore_all_digits rest (fun e he => h e (by simp [he])) _

/-- `dropWhile` leaves a list alone when no element satisfies the predicate. -/
theorem dropWhile_eq_self_of_none (p : Char → Bool) :
    ∀ (l : List Char), (∀ c ∈ l, p c = false) → l.dropWhile p = l
  | [], _ => rfl
  | c :: rest, h => by
    have hc : p c = false := h c (by simp)
    simp [List.dropWhile_cons, hc]

/-- Stripping is the identity on strings without whitespace. -/
theorem pyStrip_eq_self (l : List Char)
    (h : ∀ c ∈ l, c.isWhitespace = false) : pyStrip l = l := by
  unfold pyStrip
  rw [dropWhile_eq_self_of_none _ l h,
    dropWhile_eq_self_of_none _ l.reverse
      (fun c hc => h c (List.mem_reverse.mp hc)),
    List.reverse_reverse]

/-- Parsing the decimal rendering of `n` recovers `n`. -/
theorem pyInt_natStr (n : Nat) : pyInt (natStr n) = some (n : Int) := by
  by_cases h0 : n = 0
  · subst h0; decide
  · have hlt : n < 10 ^ n :=
      lt_of_lt_of_le (Nat.lt_two_pow n)
        (Nat.pow_le_pow_left (by norm_num) n)
    obtain ⟨hchars, hfold⟩ := natChars_spec n n hlt
    have hdigits : ∀ c ∈ natChars n n, c.isDigit = true := by
      intro c hc
      obtain ⟨d, hd, rfl⟩ := hchars c hc
      exact (digitChar_props d hd).1
    have hdata : (natStr n).data = natChars n n := by
      unfold natStr
      rw [if_neg h0]
    have hne : natChars n n ≠ [] := by
      intro hnil
      have := hfold 0
      rw [hnil] at this
      simp at this
      exact h0 this.symm
    unfold pyInt
    rw [hdata, pyStrip_eq_self _ (fun c hc => by
      obtain ⟨d, hd, rfl⟩ := hchars c hc
      exact (digitChar_props d hd).2.2.1)]
    rcases hcons : natChars n n with _ | ⟨c, rest⟩
    · exact absurd hcons hne
    · have hcd : ∃ d, d < 10 ∧ c = digitChar d := by
        apply hchars; rw [hcons]; simp
      obtain ⟨d, hd, rfl⟩ := hcd
      have hprops := digitChar_props d hd
      rw [pyIntSigned, if_neg hprops.2.2.2.1, if_neg hprops.2.2.2.2.1]
      rw [pyIntCore, if_pos hprops.1]
      rw [digitsCore_all_digits (digitChar d :: rest)
        (by rw [← hcons]; exact hdigits) 0]
      have := hfold 0
      rw [hcons] at this
      rw [this]
      simp

/-- Removing the `'p'` characters from `natStr h ++ "p"` gives back
`natStr h`. -/
theorem removeP_natStr_p (n : Nat) : removeP (natStr n ++ "p") = natStr n := by
  have hnop : ∀ c ∈ (natStr n).data, (c != 'p') = true := by
    by_cases h0 : n = 0
    · subst h0; decide
    · intro c hc
      have hdata : (natStr n).data = natChars n n := by
        unfold natStr; rw [if_neg h0]
      rw [hdata] at hc
      have hlt : n < 10 ^ n :=
        lt_of_lt_of_le (Nat.lt_two_pow n)
          (Nat.pow_le_pow_left (by norm_num) n)
      obtain ⟨d, hd, rfl⟩ := (natChars_spec n n hlt).1 c hc
      simp [(digitChar_props d hd).2.2.2.2.2]
  unfold removeP
  rw [String.data_append]
  rw [List.filter_append]
  rw [List.filter_eq_self.mpr hnop]
  have : ("p" : String).data.filter (fun c => c != 'p') = [] := by decide
  rw [this, List.append_nil]

/-- The sort key of a built entry is exactly its height. -/
theorem resKey_mkEntry (f : RawFormat) (h : Nat) :
    resKey (mkEntry f h) = (h : Int) := by
  unfold resKey mkEntry
  simp only []
  rw [removeP_natStr_p, pyInt_natStr]
  rfl

/-! ### Structure of the filtered and deduplicated lists -/

/-- Every filtered entry comes from a kept raw format. -/
theorem mem_filterFormats :
    ∀ (raw : List RawFormat) (e : FormatEntry), e ∈ filterFormats raw →
      ∃ f ∈ raw, ∃ h, f.height = some h ∧ h ≠ 0 ∧ f.ext = "mp4" ∧
        e = mkEntry f h
  | [], e, he => absurd he (List.not_mem_nil e)
  | f :: rest, e, he => by
    rcases hh : f.height with _ | h
    · simp only [filterFormats, hh] at he
      obtain ⟨g, hg, spec⟩ := mem_filterFormats rest e he
      exact ⟨g, by simp [hg], spec⟩
    · simp only [filterFormats, hh] at he
      by_cases hc : h ≠ 0 ∧ f.ext = "mp4"
      · rw [if_pos hc] at he
        rcases List.mem_cons.mp he with heq | htail
        · exact ⟨f, by simp, h, hh, hc.1, hc.2, heq⟩
        · obtain ⟨g, hg, spec⟩ := mem_filterFormats rest e htail
          exact ⟨g, by simp [hg], spec⟩
      · rw [if_neg hc] at he
        obtain ⟨g, hg, spec⟩ := mem_filterFormats rest e he
        exact ⟨g, by simp [hg], spec⟩

/-- A member of the deduplicated list is a member of the original list, its
resolution is new relative to `seen`, and it is the **first** entry of the
original list carrying its resolution. -/
theorem mem_dedupByRes :
    ∀ (l : List FormatEntry) (seen : List String) (e : FormatEntry),
      e ∈ dedupByRes seen l →
      e ∈ l ∧ e.resolution ∉ seen ∧
        l.find? (fun x => x.resolution == e.resolution) = some e
  | [], _, e, he => absurd he (List.not_mem_nil e)
  | a :: rest, seen, e, he => by
    by_cases hs : a.resolution ∈ seen
    · rw [dedupByRes, if_pos hs] at he
      obtain ⟨hmem, hnot, hfind⟩ := mem_dedupByRes rest seen e he
      have hne : (a.resolution == e.resolution) = false := by
        rw [beq_eq_false_iff_ne]
        intro heq
        exact hnot (heq ▸ hs)
      refine ⟨by simp [hmem], hnot, ?_⟩
      rw [List.find?_cons_of_neg _ (by simp [hne]), hfind]
    · rw [dedupByRes, if_neg hs] at he
      rcases List.mem_cons.mp he with heq | htail
      · subst heq
        refine ⟨by simp, hs, ?_⟩
        rw [List.find?_cons_of_pos _ (by simp)]
      · obtain ⟨hmem, hnot, hfind⟩ := mem_dedupByRes rest _ e htail
        have hnota : e.resolution ≠ a.resolution := by
          intro heq
          exact hnot (by simp [heq])
        have hnots : e.resolution ∉ seen := fun hmem' => hnot (by simp [hmem'])
        refine ⟨by simp [hmem], hnots, ?_⟩
        rw [List.find?_cons_of_neg _ (by simp [Ne.symm hnota]), hfind]

/-- The deduplicated list has pairwise distinct resolutions. -/
theorem dedupByRes_pairwise :
    ∀ (l : List FormatEntry) (seen : List String),
      (dedupByRes seen l).Pairwise (fun a b => a.resolution ≠ b.resolution)
  | [], _ => List.Pairwise.nil
  | a :: rest, seen => by
    by_cases hs : a.resolution ∈ seen
    · rw [dedupByRes, if_pos hs]
      exact dedupByRes_pairwise rest seen
    · rw [dedupByRes, if_neg hs]
      refine List.pairwise_cons.mpr ⟨?_, dedupByRes_pairwise rest _⟩
      intro e he heq
      have hnot := (mem_dedupByRes rest _ e he).2.1
      exact hnot (by simp [heq])

/-! ### C9 -/

/-- C9: the catalog `unique_formats` built by `/info` from a raw format list
(i) contains only entries arising from raw formats with a known (truthy)
height and the mp4 container, (ii) has pairwise distinct `resolution`
labels, keeping for each label the first-seen filtered entry, and
(iii) is strictly sorted descending by its numeric height (the parsed
`resolution` key, which equals the originating height). -/
theorem c9_catalog_invariants (raw : List RawFormat) :
    (∀ e ∈ unique_formats raw, e.ext = "mp4" ∧
        ∃ f ∈ raw, ∃ h, f.height = some h ∧ h ≠ 0 ∧ e = mkEntry f h) ∧
    (unique_formats raw).Pairwise (fun a b => a.resolution ≠ b.resolution) ∧
    (∀ e ∈ unique_formats raw,
        (filterFormats raw).find? (fun x => x.resolution == e.resolution)
          = some e) ∧
    (unique_formats raw).Pairwise (fun a b => resKey b < resKey a) := by
  have hperm : List.Perm (unique_formats raw)
      (dedupByRes [] (filterFormats raw)) :=
    List.perm_insertionSort catLe _
  have hmem : ∀ e ∈ unique_formats raw, e ∈ filterFormats raw ∧
      (filterFormats raw).find? (fun x => x.resolution == e.resolution)
        = some e := by
    intro e he
    have := (mem_dedupByRes (filterFormats raw) [] e (hperm.subset he))
    exact ⟨this.1, this.2.2⟩
  have hform : ∀ e ∈ unique_formats raw,
      ∃ f ∈ raw, ∃ h, f.height = some h ∧ h ≠ 0 ∧ f.ext = "mp4" ∧
        e = mkEntry f h := by
    intro e he
    exact mem_filterFormats raw e (hmem e he).1
  have hpairne : (unique_formats raw).Pairwise
      (fun a b => a.resolution ≠ b.resolution) := by
    refine (List.Perm.pairwise_iff ?_ hperm).mpr
      (dedupByRes_pairwise (filterFormats raw) [])
    exact fun h => h.symm
  refine ⟨?_, hpairne, fun e he => (hmem e he).2, ?_⟩
  · intro e he
    obtain ⟨f, hf, h, hh, hnz, hext, heq⟩ := hform e he
    refine ⟨?_, f, hf, h, hh, hnz, heq⟩
    rw [heq]
    exact hext
  · have hsorted : (unique_formats raw).Pairwise catLe :=
      List.sorted_insertionSort catLe _
    have hand := hsorted.and hpairne
    refine hand.imp_of_mem ?_
    intro a b ha hb hab
    obtain ⟨fa, _, na, _, _, _, heqa⟩ := hform a ha
    obtain ⟨fb, _, nb, _, _, _, heqb⟩ := hform b hb
    refine lt_of_le_of_ne hab.1 ?_
    intro hkeyeq
    apply hab.2
    have hka : resKey a = (na : Int) := by
      rw [heqa]; exact resKey_mkEntry fa na
    have hkb : resKey b = (nb : Int) := by
      rw [heqb]; exact resKey_mkEntry fb nb
    have hcast : (nb : Int) = (na : Int) := by rw [← hka, ← hkb, hkeyeq]
    have hnat : nb = na := by exact_mod_cast hcast
    rw [heqa, heqb, hnat]
    rfl

/-- C9 witness: on the concrete raw list `rawW`, the first-seen 720p format
`rw2` yields the catalog entry — an mp4 entry originating from a kept raw
format, and the first filtered entry carrying the `"720p"` label. -/
theorem c9_witness :
    ((mkEntry rw2 720).ext = "mp4" ∧
      ∃ f ∈ rawW, ∃ h, f.height = some h ∧ h ≠ 0 ∧
        mkEntry rw2 720 = mkEntry f h) ∧
    (filterFormats rawW).find?
        (fun x => x.resolution == (mkEntry rw2 720).resolution)
      = some (mkEntry rw2 720) :=
  ⟨(c9_catalog_invariants rawW).1 (mkEntry rw2 720) (by decide),
   (c9_catalog_invariants rawW).2.2.1 (mkEntry rw2 720) (by decide)⟩
